import Mathlib

/-!
Verification of the studio-sync backend's job-cache and engine-orchestration
core (src/backend/api.py and src/backend/scripts/audio_splitter.py) against
its natural-language specification.

The embedding below is a shallow model of the Python source:
* strings (file names, paths, stage messages, model names) are `List Char`;
* numpy audio buffers are `Waveform` (a 1-D mono array or a 2-D
  channels-by-samples array) with exact rational samples, idealizing IEEE
  float arithmetic;
* the file system is an explicit map from directory keys to directory
  listings, where each listed file carries its decode result (`none` models
  a file that `librosa.load` fails to decode);
* the demucs model is an opaque `LoadedModel` (declared stem names plus an
  inference outcome), and SHA-256 content hashing is an opaque function
  parameter `hashFn`;
* concurrency (the per-mode engine registry and the SSE streamer/queue) is
  modelled by explicit small-step transition systems over interleavings.
-/

/-- Strings of the Python source are modelled as lists of characters. -/
abbrev Str := List Char

/-- A decoded audio buffer: numpy arrays in the source are either 1-D
(mono) or 2-D (channels × samples). Samples are exact rationals. -/
inductive Waveform where
  | mono (samples : List ℚ)
  | multi (chans : List (List ℚ))
deriving DecidableEq

/-- Number of channels of a buffer (`1` for a 1-D array, `shape[0]` for 2-D). -/
def numChannels : Waveform → ℕ
  | .mono _ => 1
  | .multi chans => chans.length

/-- All samples of a buffer in row-major order (numpy flatten). -/
def Waveform.flat : Waveform → List ℚ
  | .mono s => s
  | .multi chans => chans.flatten

/-- Model of `SplitterEngine._enforce_stereo`: coerce a buffer to exactly
two channels (duplicate mono, `np.repeat` a single-channel 2-D array,
keep the first two channels of a wider array, otherwise unchanged). -/
def enforce_stereo (waveform : Waveform) : Waveform :=
  match waveform with
  | .mono s => .multi [s, s]
  | .multi [c] => .multi [c, c]
  | .multi chans =>
    if 2 < chans.length then .multi (chans.take 2) else .multi chans

/-- Maximum absolute sample of a buffer (`np.abs(audio).max()`, taken as 0
for an empty buffer). -/
def maxAbs (audio : Waveform) : ℚ :=
  (audio.flat.map (fun x => |x|)).foldr max 0

/-- Pointwise scaling of a buffer by a rational factor. -/
def Waveform.scale (c : ℚ) : Waveform → Waveform
  | .mono s => .mono (s.map (fun x => x * c))
  | .multi chans => .multi (chans.map (fun ch => ch.map (fun x => x * c)))

/-- Model of `SplitterEngine._normalize_stem`. The source computes
`target_peak = 10 ** (ceiling_db / 20.0)` as a float; since that constant
is irrational, the embedding takes the computed target peak as an explicit
rational argument (the −1 dBFS ceiling is ≈ 0.8912509381337456). -/
def normalize_stem (target_peak : ℚ) (audio : Waveform) : Waveform :=
  let peak := maxAbs audio
  if 0 < peak then audio.scale (target_peak / peak) else audio

/-- The float value of `10 ** (-1.0 / 20.0)` used by `split_audio` when it
normalizes stems to a −1 dBFS ceiling. -/
def targetPeakDefault : ℚ := 8912509381337456 / 10000000000000000

/-- Model of `SplitterEngine._calculate_metrics`. The source reports
`rms_db = 20*log10(rms + 1e-10)` and `peak_db = 20*log10(peak + 1e-10)`;
since `log10` is transcendental the embedding records the mean square and
the peak themselves (the dB values are strictly monotone images of these,
and no claim compares dB values). `duration` is `samples / sr`. -/
structure Metrics where
  meanSq : ℚ
  peak : ℚ
  duration : ℚ
deriving DecidableEq

/-- Compute the metrics record of a decoded buffer at sample rate `sr`. -/
def calculate_metrics (audio : Waveform) (sr : ℕ) : Metrics :=
  let flat := audio.flat
  let meanSq := (flat.map (fun x => x * x)).sum / (flat.length : ℚ)
  let peak := maxAbs audio
  let samples : ℕ :=
    match audio with
    | .mono s => s.length
    | .multi chans => (chans.headD []).length
  { meanSq := meanSq, peak := peak, duration := (samples : ℚ) / (sr : ℚ) }

/-- Model of `SplitterEngine.MODEL_STEMS`: the stem names each demucs model
is declared to produce. -/
def MODEL_STEMS (model_name : Str) : Option (List Str) :=
  if model_name = ("htdemucs".toList) then
    some [("drums".toList), ("bass".toList), ("other".toList), ("vocals".toList)]
  else if model_name = ("htdemucs_6s".toList) then
    some [("drums".toList), ("bass".toList), ("vocals".toList),
      ("guitar".toList), ("piano".toList), ("other".toList)]
  else none

/-- The characters of the `.wav` extension. -/
def wavExt : Str := ".wav".toList

/-- The literal part `_<stem>_` of the cache-lookup glob `*_<stem>_*.wav`. -/
def stemLiteral (stem : Str) : Str := '_' :: (stem ++ ['_'])

/-- Model of the `cache_dir.glob(f"*_\x7bstem_name\x7d_*.wav")` match test in
`SplitterEngine.check_cache`: a file name matches iff it decomposes as
`x ++ "_" ++ stem ++ "_" ++ y ++ ".wav"` with `x`, `y` arbitrary. -/
def globStem (stem fname : Str) : Bool :=
  decide (wavExt <:+ fname) &&
    (List.range (fname.length + 1)).any (fun i =>
      decide (stemLiteral stem <+: fname.drop i) &&
        decide (i + stem.length + 2 + 4 ≤ fname.length))

/-- Model of the stem file naming convention of `SplitterEngine.split_audio`:
`f"\x7baudio_path.stem\x7d_\x7bstem_name\x7d_\x7bself.model_name\x7d.wav"`. -/
def stem_filename (inputStem stemName model_name : Str) : Str :=
  inputStem ++ '_' :: (stemName ++ '_' :: (model_name ++ wavExt))

section StereoAndNormalize

/-- Helper: the fold computing a maximum of nonnegative values distributes
over pointwise scaling by a nonnegative factor. -/
theorem foldr_max_map_mul (c : ℚ) (hc : 0 ≤ c) (l : List ℚ) :
    (l.map (fun x => x * c)).foldr max 0 = l.foldr max 0 * c := by
  induction l with
  | nil => simp
  | cons y t ih =>
    simp only [List.map_cons, List.foldr_cons, ih]
    rw [max_mul_of_nonneg _ _ hc]

/-- Helper: `maxAbs` of a scaled buffer is the scaled `maxAbs`, for a
nonnegative factor. -/
theorem maxAbs_scale (c : ℚ) (hc : 0 ≤ c) (audio : Waveform) :
    maxAbs (audio.scale c) = maxAbs audio * c := by
  have key : ∀ l : List ℚ,
      ((l.map (fun x => x * c)).map (fun x => |x|)).foldr max 0 =
        (l.map (fun x => |x|)).foldr max 0 * c := by
    intro l
    rw [← foldr_max_map_mul c hc]
    congr 1
    simp only [List.map_map]
    apply List.map_congr_left
    intro x _
    simp [abs_mul, abs_of_nonneg hc]
  cases audio with
  | mono s => simpa [maxAbs, Waveform.scale, Waveform.flat] using key s
  | multi chans =>
    simp only [maxAbs, Waveform.scale, Waveform.flat]
    rw [← List.map_flatten]
    exact key chans.flatten

/-- Helper: the maximum absolute value of a list of zeros is zero. -/
theorem foldr_maxabs_of_all_zero (l : List ℚ) (h : ∀ x ∈ l, x = 0) :
    (l.map (fun x => |x|)).foldr max 0 = 0 := by
  induction l with
  | nil => simp
  | cons y t ih =>
    simp only [List.map_cons, List.foldr_cons]
    rw [h y (by simp), ih (fun x hx => h x (by simp [hx]))]
    simp

/-- Helper: a buffer whose samples are all zero has `maxAbs` zero. -/
theorem maxAbs_eq_zero_of_all_zero (audio : Waveform)
    (h : ∀ x ∈ audio.flat, x = 0) : maxAbs audio = 0 :=
  foldr_maxabs_of_all_zero audio.flat h

/-- C7: peak normalization scales a buffer with nonzero peak so that its
maximum absolute sample equals the computed ceiling value exactly (in the
exact-arithmetic model, hence a fortiori within ±0.01 dB of the −1 dBFS
ceiling the source computes as `10 ** (-1/20)`), and it returns an
all-zero buffer unchanged, performing no division by zero. -/
theorem normalize_stem_peak (target_peak : ℚ) (audio : Waveform)
    (ht : 0 < target_peak) :
    (0 < maxAbs audio → maxAbs (normalize_stem target_peak audio) = target_peak) ∧
    ((∀ x ∈ audio.flat, x = 0) → normalize_stem target_peak audio = audio) := by
  constructor
  · intro hp
    unfold normalize_stem
    rw [if_pos hp, maxAbs_scale _ (by positivity)]
    field_simp
  · intro hz
    unfold normalize_stem
    rw [if_neg]
    rw [maxAbs_eq_zero_of_all_zero audio hz]
    exact lt_irrefl 0

/-- Witness for C7 at a concrete non-silent buffer and at the source's
−1 dBFS ceiling constant. -/
theorem normalize_stem_peak_witness :
    0 < targetPeakDefault ∧
      maxAbs (normalize_stem targetPeakDefault (.multi [[1, -2], [0, 0]])) =
        targetPeakDefault :=
  ⟨by norm_num [targetPeakDefault],
    (normalize_stem_peak targetPeakDefault (.multi [[1, -2], [0, 0]])
      (by norm_num [targetPeakDefault])).1 (by decide)⟩

/-- C8: stereo coercion always yields exactly two channels on any buffer
with at least one channel; a 1-D mono buffer is duplicated into two
identical channels (as is a 1-channel 2-D buffer), a buffer with more than
two channels keeps only its first two, and a 2-channel buffer is returned
unchanged. -/
theorem enforce_stereo_channels (w : Waveform) (h : 1 ≤ numChannels w) :
    numChannels (enforce_stereo w) = 2 ∧
    (∀ s, w = .mono s → enforce_stereo w = .multi [s, s]) ∧
    (∀ c, w = .multi [c] → enforce_stereo w = .multi [c, c]) ∧
    (∀ chans, w = .multi chans → 2 < chans.length →
      enforce_stereo w = .multi (chans.take 2)) ∧
    (∀ chans, w = .multi chans → chans.length = 2 → enforce_stereo w = w) := by
  match w with
  | .mono s =>
    refine ⟨rfl, fun s' hs => by injection hs with h1; subst h1; rfl,
      fun c hc => by simp_all, fun chans hc => by simp_all,
      fun chans hc => by simp_all⟩
  | .multi [] => simp [numChannels] at h
  | .multi [c] =>
    refine ⟨rfl, fun s' hs => by simp_all, fun c' hc => ?_,
      fun chans hc hl => ?_, fun chans hc hl => ?_⟩
    · injection hc with hc; injection hc with h1 h2; subst h1; rfl
    · injection hc with hc; subst hc; simp at hl
    · injection hc with hc; subst hc; simp at hl
  | .multi (c₁ :: c₂ :: rest) =>
    refine ⟨?_, fun s' hs => by simp_all, fun c' hc => by simp_all,
      fun chans hc hl => ?_, fun chans hc hl => ?_⟩
    · show numChannels (if 2 < (c₁ :: c₂ :: rest).length then _ else _) = 2
      split
      · simp [numChannels]
      · simp only [numChannels, List.length_cons] at *; omega
    · injection hc with hc; subst hc
      show (if 2 < (c₁ :: c₂ :: rest).length then _ else _) = _
      rw [if_pos hl]
    · injection hc with hc; subst hc
      show (if 2 < (c₁ :: c₂ :: rest).length then _ else _) = _
      rw [if_neg (by omega)]

/-- Witness for C8 at a concrete mono buffer. -/
theorem enforce_stereo_channels_witness :
    1 ≤ numChannels (.mono [1]) ∧
      numChannels (enforce_stereo (.mono [1])) = 2 :=
  ⟨by decide, (enforce_stereo_channels (.mono [1]) (by decide)).1⟩

end StereoAndNormalize

/-! ## The splitter engine, cache lookup and separation run -/

/-- Outcome of the opaque demucs inference call `apply_model`:
per-stem source buffers, an out-of-memory `RuntimeError`, or any other
exception with its message. -/
inductive InferOutcome where
  | ok (sources : List Waveform)
  | oom (msg : Str)
  | err (msg : Str)

/-- An opaque loaded demucs model: its declared stem names (`model.sources`)
and its inference behaviour on an input buffer. -/
structure LoadedModel where
  sources : List Str
  infer : Waveform → InferOutcome

/-- Model of a `SplitterEngine` instance after `__init__` has run: its model
name, whether it ended up in mock mode, and the loaded backend (if any). -/
structure SplitterEngine where
  model_name : Str
  mock_mode : Bool
  model : Option LoadedModel

/-- A directory in the modelled file system, identified structurally: the
cache layout `output_base_dir / file_hash / mode`, the fallback layout
`audio_path.parent / (stem + "_stems")`, or an explicitly given path. -/
inductive DirKey where
  | cacheDir (base hash mode : Str)
  | localDir (parent inputStem : Str)
  | customDir (p : Str)
deriving DecidableEq

/-- A directory listing: file names paired with the file's decode result
(`none` models a file `librosa.load` raises on, i.e. a corrupt cache stem;
`some (audio, sr)` a file decoding to `audio` at native rate `sr`). -/
abbrev Dir := List (Str × Option (Waveform × ℕ))

/-- The modelled file system: a partial map from directory keys to
directory listings (`none` = directory does not exist). -/
structure FS where
  dirs : DirKey → Option Dir

/-- Create or replace a directory in the file system. -/
def FS.setDir (fs : FS) (k : DirKey) (d : Dir) : FS :=
  { dirs := fun k' => if k' = k then some d else fs.dirs k' }

/-- Write a file into a directory listing: `sf.write` overwrites an
existing file of the same name and otherwise creates a new one. -/
def fsWriteFile (d : Dir) (fname : Str) (v : Option (Waveform × ℕ)) : Dir :=
  if d.any (fun p => decide (p.1 = fname)) then
    d.map (fun p => if p.1 = fname then (fname, v) else p)
  else d ++ [(fname, v)]

/-- The uploaded input file as the splitter sees it: its printable path,
its `Path.stem` (base name without extension), whether it exists, its raw
byte content (for hashing), and the result of decoding it with
`librosa.load(sr=44100, mono=False)`. -/
structure InputFile where
  pathStr : Str
  pathStem : Str
  present : Bool
  content : Str
  decoded : Except Str Waveform

/-- One produced stem as recorded in the result dictionary. -/
structure StemEntry where
  path : Str
  metrics : Metrics
deriving DecidableEq

/-- The result dictionary of `split_audio` / `check_cache`, unified into
one record; keys absent from a given Python dict are `none` / `[]` /
`false` here. -/
structure SplitResult where
  success : Bool
  stems : List (Str × StemEntry)
  output_directory : Option DirKey
  sample_rate : Option ℕ
  model_used : Str
  input_file : Str
  cache_hit : Bool
  file_hash : Option Str
  error : Option Str
  mock : Bool
deriving DecidableEq

/-- The `{"success": False, "error": e, "stems": {}}` failure dictionary. -/
def SplitResult.failureRec (e : Str) : SplitResult :=
  { success := false, stems := [], output_directory := none, sample_rate := none,
    model_used := [], input_file := [], cache_hit := false, file_hash := none,
    error := some e, mock := false }

/-- Return value of `split_audio`: a result dictionary, or a re-raised
`MemoryError`. -/
inductive SplitRet where
  | ok (r : SplitResult)
  | memErr (msg : Str)
deriving DecidableEq

/-- `check_cache` stacks a mono cached stem into two identical channels
before computing metrics (`if audio_data.ndim == 1: np.stack([...])`). -/
def stackIfMono : Waveform → Waveform
  | .mono s => .multi [s, s]
  | w => w

/-- The per-stem loop of `SplitterEngine.check_cache`: for each expected
stem name, glob the directory for `*_<stem>_*.wav`; fail on no match; take
the first match; fail if it does not decode; otherwise record an entry.
The returned `Option ℕ` is the value of the loop-carried `sr` variable
after the last iteration (`none` when the loop body never ran, in which
case the source raises `NameError` building the result). -/
def collectStems (dir : Dir) : List Str → Option (List (Str × StemEntry) × Option ℕ)
  | [] => some ([], none)
  | stemName :: rest =>
    match dir.filter (fun p => globStem stemName p.1) with
    | [] => none
    | (fn, d) :: _ =>
      match d with
      | none => none
      | some (au, sr) =>
        let entry : StemEntry :=
          { path := fn, metrics := calculate_metrics (stackIfMono au) sr }
        match collectStems dir rest with
        | none => none
        | some (l, srLast) => some ((stemName, entry) :: l, some (srLast.getD sr))

/-- Model of `SplitterEngine.check_cache`. Everything runs inside a broad
`try`: a missing input file (hash failure), a missing directory, a missing
stem, an undecodable stem, or an empty expected-stem list all produce a
miss `(false, none)`; only a fully validated directory is a hit. -/
def check_cache (hashFn : Str → Str) (eng : SplitterEngine) (fs : FS)
    (input : InputFile) (output_base_dir mode : Str) : Bool × Option SplitResult :=
  if input.present = false then (false, none)
  else
    let file_hash := hashFn input.content
    match fs.dirs (.cacheDir output_base_dir file_hash mode) with
    | none => (false, none)
    | some dir =>
      let expected := (MODEL_STEMS eng.model_name).getD []
      match collectStems dir expected with
      | none => (false, none)
      | some (_, none) => (false, none)
      | some (stems, some sr) =>
        (true, some { success := true, stems := stems,
                      output_directory := some (.cacheDir output_base_dir file_hash mode),
                      sample_rate := some sr, model_used := eng.model_name,
                      input_file := input.pathStr, cache_hit := true,
                      file_hash := some file_hash, error := none, mock := false })

/-! Progress stage strings of `split_audio` (built by hand where the source
uses f-strings). -/

/-- Stage string `Initializing...`. -/
def initMsg : Str := "Initializing...".toList

/-- Stage string `Checking cache...`. -/
def checkingCacheMsg : Str := "Checking cache...".toList

/-- Stage string `Complete (cached)`. -/
def cachedCompleteMsg : Str := "Complete (cached)".toList

/-- Stage string `Loading audio file...`. -/
def loadingMsg : Str := "Loading audio file...".toList

/-- Stage string `Analyzing audio waveform...`. -/
def analyzeMsg : Str := "Analyzing audio waveform...".toList

/-- Stage string `Preparing for AI processing...`. -/
def prepMsg : Str := "Preparing for AI processing...".toList

/-- Stage string `Converting to tensor format...`. -/
def tensorMsg : Str := "Converting to tensor format...".toList

/-- Stage string `Starting neural network inference...`. -/
def startInferMsg : Str := "Starting neural network inference...".toList

/-- Stage string `Model inference complete...`. -/
def inferDoneMsg : Str := "Model inference complete...".toList

/-- Stage string `Complete!`. -/
def completeMsg : Str := "Complete!".toList

/-- The not-found error `f"Audio file not found: <path>"`. -/
def notFoundMsg (p : Str) : Str := "Audio file not found: ".toList ++ p

/-- The `MemoryError` message raised on an out-of-memory inference. -/
def oomMsg (e : Str) : Str :=
  "Out of memory processing audio. Try a shorter file. Original error: ".toList ++ e

/-- Python `str.capitalize` restricted to its use on stem names here
(upper-case the first character). -/
def capitalizeStr : Str → Str
  | [] => []
  | c :: r => c.toUpper :: r

/-- Stage string `Saving <Stem> stem...`. -/
def saveMsg (s : Str) : Str := "Saving ".toList ++ capitalizeStr s ++ " stem...".toList

/-- Mock stage string `Separating <Stem>...`. -/
def mockMsg (s : Str) : Str := "Separating ".toList ++ capitalizeStr s ++ "...".toList

/-- Decimal rendering of a natural number. -/
def natToStr (n : ℕ) : Str := (toString n).toList

/-- Stage string `Separating stems (0/<n>)...`. -/
def sepMsg (n : ℕ) : Str :=
  "Separating stems (0/".toList ++ natToStr n ++ ")...".toList

/-- Error message of the `AttributeError` hit when `self.model` is `None`
outside mock mode (approximated textually; no claim inspects it). -/
def attrErrMsg : Str := "NoneType object has no attribute sources".toList

/-- Stage 4 of `split_audio`: save each separated stem. Walks the zip of
declared stem names and inference outputs, normalizing each stem to the
−1 dBFS ceiling, writing `<inputStem>_<stemName>_<modelName>.wav` into the
output directory and recording metrics; also yields the per-stem progress
events (`int(70 + (idx+1) * 25/num_stems)`, idealized to exact `ℕ`
arithmetic). -/
def saveStems (tp : ℚ) (inputStem model_name : Str) (sr n : ℕ) :
    ℕ → List (Str × Waveform) → Dir → Dir × List (Str × StemEntry) × List (ℕ × Str)
  | _, [], d => (d, [], [])
  | idx, (sname, src) :: rest, d =>
    let pct := 70 + ((idx + 1) * 25) / n
    let audio := normalize_stem tp src
    let fname := stem_filename inputStem sname model_name
    let d' := fsWriteFile d fname (some (audio, sr))
    let entry : StemEntry := { path := fname, metrics := calculate_metrics audio sr }
    let out := saveStems tp inputStem model_name sr n (idx + 1) rest d'
    (out.1, (sname, entry) :: out.2.1, (pct, saveMsg sname) :: out.2.2)

/-- Default stem list used by `_mock_split` when the model name is
unknown. -/
def defaultMockStems : List Str :=
  [("drums".toList), ("bass".toList), ("vocals".toList),
    ("guitar".toList), ("piano".toList), ("other".toList)]

/-- A fabricated mock stem entry. The source draws its rms/peak/duration
from `np.random`; the embedding fixes representative values since no claim
inspects them. -/
def mockStemEntry (inputStem model_name sname : Str) : StemEntry :=
  { path := "/mock/path/".toList ++ stem_filename inputStem sname model_name,
    metrics := { meanSq := 0, peak := 0, duration := 180 } }

/-- The progress events of `_mock_split`
(`int(20 + (idx+1) * (70/len(stem_names)))`, idealized to `ℕ` division). -/
def mockEvents (n : ℕ) : ℕ → List Str → List (ℕ × Str)
  | _, [] => []
  | idx, s :: rest => (20 + ((idx + 1) * 70) / n, mockMsg s) :: mockEvents n (idx + 1) rest

/-- Model of `SplitterEngine._mock_split`. -/
def mock_split (eng : SplitterEngine) (input : InputFile) :
    SplitResult × List (ℕ × Str) :=
  let stem_names := (MODEL_STEMS eng.model_name).getD defaultMockStems
  let stems := stem_names.map
    (fun s => (s, mockStemEntry input.pathStem eng.model_name s))
  ({ success := true, stems := stems,
     output_directory := some (.customDir ("/mock/output".toList)),
     sample_rate := some 44100, model_used := eng.model_name,
     input_file := input.pathStr, cache_hit := false,
     file_hash := some ("mock_hash".toList), error := none, mock := true },
   mockEvents stem_names.length 0 stem_names ++ [(100, completeMsg)])

/-- The part of `SplitterEngine.split_audio` after the cache check: load
and stereo-coerce the audio, resolve and create the output directory, run
inference (re-raising out-of-memory, catching other failures), save the
stems, and assemble the success dictionary. `ev` is the progress reported
so far. -/
def split_after_cache (hashFn : Str → Str) (eng : SplitterEngine) (input : InputFile)
    (fs : FS) (output_dir : Option DirKey) (output_base_dir : Option Str) (mode : Str)
    (ev : List (ℕ × Str)) : SplitRet × List (ℕ × Str) × FS :=
  let ev := ev ++ [(5, loadingMsg)]
  if eng.mock_mode then
    let r := mock_split eng input
    (.ok r.1, ev ++ r.2, fs)
  else
    match input.decoded with
    | .error e => (.ok (SplitResult.failureRec e), ev, fs)
    | .ok waveform0 =>
      let ev := ev ++ [(10, analyzeMsg)]
      let waveform := enforce_stereo waveform0
      let sr : ℕ := 44100
      let ev := ev ++ [(15, prepMsg), (20, tensorMsg)]
      let key : DirKey :=
        match output_dir, output_base_dir with
        | none, some b => .cacheDir b (hashFn input.content) mode
        | none, none => .localDir input.pathStr input.pathStem
        | some k, _ => k
      let fs1 : FS := if (fs.dirs key).isSome then fs else fs.setDir key []
      let ev := ev ++ [(25, startInferMsg)]
      match eng.model with
      | none => (.ok (SplitResult.failureRec attrErrMsg), ev, fs1)
      | some m =>
        let stem_names := m.sources
        let n := stem_names.length
        let ev := ev ++ [(30, sepMsg n)]
        match m.infer waveform with
        | .oom e => (.memErr (oomMsg e), ev, fs1)
        | .err e => (.ok (SplitResult.failureRec e), ev, fs1)
        | .ok sources =>
          let ev := ev ++ [(70, inferDoneMsg)]
          let d0 := (fs1.dirs key).getD []
          let saved := saveStems targetPeakDefault input.pathStem eng.model_name sr n 0
            (stem_names.zip sources) d0
          let fs2 := fs1.setDir key saved.1
          (.ok { success := true, stems := saved.2.1, output_directory := some key,
                 sample_rate := some sr, model_used := eng.model_name,
                 input_file := input.pathStr, cache_hit := false,
                 file_hash := some (hashFn input.content), error := none, mock := false },
           ev ++ saved.2.2 ++ [(100, completeMsg)], fs2)

/-- Model of `SplitterEngine.split_audio`. Returns the result (or the
re-raised `MemoryError`), the list of `(percent, stage)` progress-callback
invocations in order, and the resulting file system. The existence check
on the input precedes every progress report. -/
def split_audio (hashFn : Str → Str) (eng : SplitterEngine) (input : InputFile)
    (fs : FS) (output_dir : Option DirKey) (check_cache_flag : Bool)
    (output_base_dir : Option Str) (mode : Str) : SplitRet × List (ℕ × Str) × FS :=
  if input.present = false then
    (.ok (SplitResult.failureRec (notFoundMsg input.pathStr)), [], fs)
  else
    match check_cache_flag, output_base_dir with
    | true, some b =>
      match check_cache hashFn eng fs input b mode with
      | (true, some cached) =>
        (.ok cached, [(2, initMsg), (3, checkingCacheMsg), (100, cachedCompleteMsg)], fs)
      | _ =>
        split_after_cache hashFn eng input fs output_dir output_base_dir mode
          [(2, initMsg), (3, checkingCacheMsg)]
    | _, _ =>
      split_after_cache hashFn eng input fs output_dir output_base_dir mode
        [(2, initMsg)]

/-! ## C10 — missing input file -/

/-- C10: when the input path does not exist, `split_audio` returns the
`success = false` dictionary whose error message names the path, raises
nothing, invokes the progress callback zero times, and leaves the file
system untouched (the existence check precedes the first progress
report). -/
theorem split_audio_missing_input (hashFn : Str → Str) (eng : SplitterEngine)
    (input : InputFile) (fs : FS) (output_dir : Option DirKey)
    (check_cache_flag : Bool) (output_base_dir : Option Str) (mode : Str)
    (h : input.present = false) :
    split_audio hashFn eng input fs output_dir check_cache_flag output_base_dir mode =
      (.ok (SplitResult.failureRec (notFoundMsg input.pathStr)), [], fs) := by
  simp [split_audio, h]

/-- Witness for C10 at one fully concrete input. -/
theorem split_audio_missing_input_witness :
    split_audio (fun _ => []) ⟨[], false, none⟩
        ⟨("song.mp3".toList), ("song".toList), false, [], .error []⟩
        ⟨fun _ => none⟩ none true (some []) ("fast".toList) =
      (.ok (SplitResult.failureRec (notFoundMsg ("song.mp3".toList))), [],
        (⟨fun _ => none⟩ : FS)) :=
  split_audio_missing_input (fun _ => []) ⟨[], false, none⟩
    ⟨("song.mp3".toList), ("song".toList), false, [], .error []⟩
    ⟨fun _ => none⟩ none true (some []) ("fast".toList) rfl

/-! ## C2 — no partial cache hits -/

/-- Helper for C2: the stem-collection loop fails as a whole whenever some
expected stem either has no glob match in the directory or its first glob
match does not decode. -/
theorem collectStems_eq_none (dir : Dir) (L : List Str) (s : Str) (hs : s ∈ L)
    (hbad : dir.filter (fun p => globStem s p.1) = [] ∨
      ∃ fn rest, dir.filter (fun p => globStem s p.1) = (fn, none) :: rest) :
    collectStems dir L = none := by
  induction L with
  | nil => cases hs
  | cons a rest ih =>
    rcases List.mem_cons.mp hs with h1 | h1
    · subst h1
      rcases hbad with hb | ⟨fn, r, hb⟩
      · simp [collectStems, hb]
      · simp [collectStems, hb]
    · cases hfa : dir.filter (fun p => globStem a p.1) with
      | nil => simp [collectStems, hfa]
      | cons hd tl =>
        cases hd with
        | mk fn d =>
          cases d with
          | none => simp [collectStems, hfa]
          | some v => simp [collectStems, hfa, ih h1]

/-- C2 (amended): if the candidate cache directory exists but some stem
name declared by the engine's profile has no file matching `*_<stem>_*.wav`
in it, or the first such matching file fails to decode, then `check_cache`
returns a full miss `(false, none)` — no partial hit, and the decode error
is absorbed rather than propagated (the lookup still returns normally). -/
theorem check_cache_no_partial_hit (hashFn : Str → Str) (eng : SplitterEngine)
    (fs : FS) (input : InputFile) (b mode : Str) (dir : Dir) (stemName : Str)
    (hdir : fs.dirs (.cacheDir b (hashFn input.content) mode) = some dir)
    (hstem : stemName ∈ (MODEL_STEMS eng.model_name).getD [])
    (hbad : dir.filter (fun p => globStem stemName p.1) = [] ∨
      ∃ fn rest, dir.filter (fun p => globStem stemName p.1) = (fn, none) :: rest) :
    check_cache hashFn eng fs input b mode = (false, none) := by
  unfold check_cache
  cases hp : input.present with
  | false => simp
  | true => simp [hdir, collectStems_eq_none dir _ stemName hstem hbad]

/-- Witness for C2's amended theorem at a concrete state: an existing but
empty cache directory for the `htdemucs` profile is a miss. -/
theorem check_cache_no_partial_hit_witness :
    (("drums".toList) ∈ (MODEL_STEMS ("htdemucs".toList)).getD []) ∧
      check_cache (fun _ => ("h".toList))
          ⟨("htdemucs".toList), false, none⟩
          ⟨fun k => if k = .cacheDir ("out".toList) ("h".toList) ("fast".toList)
            then some [] else none⟩
          ⟨("p".toList), ("p".toList), true, ("c".toList), .error []⟩
          ("out".toList) ("fast".toList) = (false, none) :=
  ⟨by decide,
    check_cache_no_partial_hit (fun _ => ("h".toList))
      ⟨("htdemucs".toList), false, none⟩
      ⟨fun k => if k = .cacheDir ("out".toList) ("h".toList) ("fast".toList)
        then some [] else none⟩
      ⟨("p".toList), ("p".toList), true, ("c".toList), .error []⟩
      ("out".toList) ("fast".toList) [] ("drums".toList)
      (by simp) (by decide) (Or.inl rfl)⟩

/-- The concrete cache directory refuting C2 as stated: for stem `drums`
the glob `*_drums_*.wav` matches two files; the first decodes and the
second is corrupt. All four profile stems of `htdemucs` resolve via their
first match. -/
def dirC2 : Dir :=
  [(("a_drums_m.wav".toList), some (.multi [[1], [1]], 44100)),
   (("z_drums_m.wav".toList), none),
   (("a_bass_m.wav".toList), some (.multi [[1], [1]], 44100)),
   (("a_other_m.wav".toList), some (.multi [[1], [1]], 44100)),
   (("a_vocals_m.wav".toList), some (.multi [[1], [1]], 44100))]

/-- Counterexample to C2 as stated: in `dirC2` the file `z_drums_m.wav`
is a matched stem file (it matches `*_drums_*.wav`) that fails to decode,
yet the lookup returns a hit, because only the **first** glob match per
stem is ever decoded. -/
theorem check_cache_corrupt_match_still_hit :
    globStem ("drums".toList) ("z_drums_m.wav".toList) = true ∧
      (("z_drums_m.wav".toList), (none : Option (Waveform × ℕ))) ∈ dirC2 ∧
      (check_cache (fun _ => ("h".toList))
          ⟨("htdemucs".toList), false, none⟩
          ⟨fun k => if k = .cacheDir ("out".toList) ("h".toList) ("fast".toList)
            then some dirC2 else none⟩
          ⟨("p".toList), ("p".toList), true, ("c".toList), .error []⟩
          ("out".toList) ("fast".toList)).1 = true := by
  refine ⟨by decide, by decide, ?_⟩
  decide

/-! ## C1 — cache round trip: lemmas -/

/-- Helper: a freshly written stem file name matches its own stem's glob
pattern `*_<stem>_*.wav`. -/
theorem globStem_stem_filename (inp s mn : Str) :
    globStem s (stem_filename inp s mn) = true := by
  have hshape : stem_filename inp s mn = (inp ++ '_' :: (s ++ '_' :: mn)) ++ wavExt := by
    simp [stem_filename]
  have hsuf : wavExt <:+ stem_filename inp s mn := ⟨inp ++ '_' :: (s ++ '_' :: mn), hshape.symm⟩
  have hdrop : (stem_filename inp s mn).drop inp.length = '_' :: (s ++ '_' :: (mn ++ wavExt)) := by
    unfold stem_filename
    exact List.drop_left inp _
  have hpre : stemLiteral s <+: (stem_filename inp s mn).drop inp.length := by
    rw [hdrop]
    refine ⟨mn ++ wavExt, ?_⟩
    simp [stemLiteral]
  have hlentot : (stem_filename inp s mn).length =
      inp.length + s.length + mn.length + 6 := by
    simp [stem_filename, wavExt]
    omega
  simp only [globStem, Bool.and_eq_true, decide_eq_true_eq, List.any_eq_true,
    List.mem_range]
  exact ⟨hsuf, inp.length, by rw [hlentot]; omega, hpre, by rw [hlentot]; omega⟩

/-- Helper: the two stem lists declared in `MODEL_STEMS` are nonempty and
duplicate-free. -/
theorem MODEL_STEMS_sound (n : Str) (L : List Str) (h : MODEL_STEMS n = some L) :
    L.Nodup ∧ L ≠ [] := by
  unfold MODEL_STEMS at h
  split_ifs at h
  · injection h with h; subst h; exact ⟨by decide, by decide⟩
  · injection h with h; subst h; exact ⟨by decide, by decide⟩

/-- Helper: the stem naming convention is injective in the stem name for a
fixed input stem and model name. -/
theorem stem_filename_inj (inp mn s s' : Str)
    (h : stem_filename inp s mn = stem_filename inp s' mn) : s = s' := by
  unfold stem_filename at h
  have h2 := List.append_cancel_left h
  injection h2 with _ h3
  have hl : s.length = s'.length := by
    have := congrArg List.length h3
    simp at this
    omega
  have h4 : s ++ '_' :: (mn ++ wavExt) = s' ++ '_' :: (mn ++ wavExt) := h3
  exact (List.append_inj h4 hl).1

/-- Helper: writing a file whose name is not yet present appends it. -/
theorem fsWriteFile_fresh (d : Dir) (fn : Str) (v : Option (Waveform × ℕ))
    (h : ∀ q ∈ d, q.1 ≠ fn) : fsWriteFile d fn v = d ++ [(fn, v)] := by
  unfold fsWriteFile
  rw [if_neg]
  simp only [List.any_eq_true, decide_eq_true_eq]
  rintro ⟨q, hq, hq1⟩
  exact h q hq hq1

/-- The directory contents produced by the stage-4 save loop, as a list of
named, normalized stem files at the run's sample rate. -/
def cacheDirContents (tp : ℚ) (inp mn : Str) (sr : ℕ) (l : List (Str × Waveform)) : Dir :=
  l.map (fun p => (stem_filename inp p.1 mn, some (normalize_stem tp p.2, sr)))

/-- Helper: on a directory containing none of the target file names yet,
the save loop appends exactly one decodable file per zipped stem and keeps
the stem names in order. -/
theorem saveStems_fresh (tp : ℚ) (inp mn : Str) (sr n : ℕ)
    (l : List (Str × Waveform)) : ∀ (idx : ℕ) (d : Dir),
    (∀ q ∈ d, ∀ p ∈ l, q.1 ≠ stem_filename inp p.1 mn) →
    (l.map Prod.fst).Nodup →
    (saveStems tp inp mn sr n idx l d).1 = d ++ cacheDirContents tp inp mn sr l ∧
    (saveStems tp inp mn sr n idx l d).2.1.map Prod.fst = l.map Prod.fst := by
  induction l with
  | nil => intro idx d _ _; simp [saveStems, cacheDirContents]
  | cons p rest ih =>
    intro idx d hfresh hnd
    obtain ⟨s, src⟩ := p
    have hfn : ∀ q ∈ d, q.1 ≠ stem_filename inp s mn := fun q hq =>
      hfresh q hq (s, src) (List.mem_cons_self _ _)
    have hw := fsWriteFile_fresh d (stem_filename inp s mn)
      (some (normalize_stem tp src, sr)) hfn
    have hnd2 : (rest.map Prod.fst).Nodup := by
      simp only [List.map_cons, List.nodup_cons] at hnd
      exact hnd.2
    have hs_not : s ∉ rest.map Prod.fst := by
      simp only [List.map_cons, List.nodup_cons] at hnd
      exact hnd.1
    have hfresh2 : ∀ q ∈ d ++ [(stem_filename inp s mn, some (normalize_stem tp src, sr))],
        ∀ p ∈ rest, q.1 ≠ stem_filename inp p.1 mn := by
      intro q hq p hp
      rcases List.mem_append.mp hq with hq1 | hq1
      · exact hfresh q hq1 p (List.mem_cons_of_mem _ hp)
      · have hq2 : q.1 = stem_filename inp s mn := by
          rw [List.mem_singleton.mp hq1]
        rw [hq2]
        intro hcon
        exact hs_not ((stem_filename_inj inp mn s p.1 hcon) ▸
          List.mem_map_of_mem Prod.fst hp)
    have hih := ih (idx + 1)
      (d ++ [(stem_filename inp s mn, some (normalize_stem tp src, sr))]) hfresh2 hnd2
    constructor
    · simp only [saveStems, hw]
      rw [hih.1]
      simp [cacheDirContents, List.append_assoc]
    · simp only [saveStems, hw, List.map_cons]
      rw [hih.2]

/-- Helper: on a directory whose every file decodes at one common sample
rate and which offers a glob match for every requested stem, the cache
collection loop succeeds, returns the stem names in order, and reports
that common sample rate (from the last loop iteration). -/
theorem collectStems_complete (dir : Dir) (sr0 : ℕ)
    (hdec : ∀ q ∈ dir, ∃ au, q.2 = some (au, sr0)) (L : List Str)
    (hmatch : ∀ s ∈ L, ∃ q ∈ dir, globStem s q.1 = true) :
    ∃ es osr, collectStems dir L = some (es, osr) ∧
      es.map Prod.fst = L ∧ (L ≠ [] → osr = some sr0) := by
  induction L with
  | nil => exact ⟨[], none, rfl, rfl, fun h => absurd rfl h⟩
  | cons s rest ih =>
    obtain ⟨q, hq, hglob⟩ := hmatch s (List.mem_cons_self _ _)
    have hqf : q ∈ dir.filter (fun p => globStem s p.1) :=
      List.mem_filter.mpr ⟨hq, hglob⟩
    obtain ⟨hd, tl, hfil⟩ :=
      List.exists_cons_of_ne_nil (List.ne_nil_of_mem hqf)
    have hhd_dir : hd ∈ dir :=
      List.mem_of_mem_filter (hfil ▸ List.mem_cons_self hd tl)
    obtain ⟨fn, dd⟩ := hd
    obtain ⟨au, hau⟩ := hdec (fn, dd) hhd_dir
    simp only at hau
    subst hau
    obtain ⟨es1, osr1, hco, hnames, hsr⟩ :=
      ih (fun s1 hs1 => hmatch s1 (List.mem_cons_of_mem _ hs1))
    refine ⟨(s, ⟨fn, calculate_metrics (stackIfMono au) sr0⟩) :: es1,
      some (osr1.getD sr0), ?_, ?_, ?_⟩
    · simp only [collectStems, hfil, hco]
    · simp [hnames]
    · intro _
      cases hrest : rest with
      | nil =>
        subst hrest
        simp only [collectStems] at hco
        injection hco with hco
        rw [← (Prod.mk.injEq _ _ _ _).mp hco |>.2]
        rfl
      | cons a b =>
        rw [hsr (by simp [hrest])]
        rfl

/-- Helper: the success path of `split_after_cache` into a fresh cache
directory — its result dictionary and its resulting file system. -/
theorem split_after_cache_success (hashFn : Str → Str) (eng : SplitterEngine)
    (M : LoadedModel) (input : InputFile) (fs : FS) (b mode : Str)
    (w0 : Waveform) (srcs : List Waveform) (ev : List (ℕ × Str))
    (hmock : eng.mock_mode = false)
    (hdec : input.decoded = .ok w0)
    (hmodel : eng.model = some M)
    (hinfer : M.infer (enforce_stereo w0) = .ok srcs)
    (hmiss : fs.dirs (.cacheDir b (hashFn input.content) mode) = none) :
    (split_after_cache hashFn eng input fs none (some b) mode ev).1 =
      .ok { success := true,
            stems := (saveStems targetPeakDefault input.pathStem eng.model_name 44100
              M.sources.length 0 (M.sources.zip srcs) []).2.1,
            output_directory := some (.cacheDir b (hashFn input.content) mode),
            sample_rate := some 44100, model_used := eng.model_name,
            input_file := input.pathStr, cache_hit := false,
            file_hash := some (hashFn input.content), error := none, mock := false } ∧
    (split_after_cache hashFn eng input fs none (some b) mode ev).2.2 =
      (fs.setDir (.cacheDir b (hashFn input.content) mode) []).setDir
        (.cacheDir b (hashFn input.content) mode)
        (saveStems targetPeakDefault input.pathStem eng.model_name 44100
          M.sources.length 0 (M.sources.zip srcs) []).1 := by
  have hd0 : (((fs.setDir (.cacheDir b (hashFn input.content) mode) []).dirs
      (.cacheDir b (hashFn input.content) mode)).getD []) = [] := by
    simp [FS.setDir]
  constructor <;>
    simp [split_after_cache, hmock, hdec, hmodel, hinfer, hmiss, hd0, FS.setDir]

/-- C1: starting from a file system with no cache entry for the input's
content hash and mode, running `split_audio` twice with the same input
content and mode yields `cache_hit = false` on the first run and
`cache_hit = true` on the second, and both runs report the same stem name
set (in the profile's order) and the same sample rate 44100 — the first
run persists its stems under `baseDir/hash/mode` with names that the
cache lookup's `*_<stem>_*.wav` patterns then match. -/
theorem split_cache_roundtrip
    (hashFn : Str → Str) (eng : SplitterEngine) (M : LoadedModel) (input : InputFile)
    (fs : FS) (b mode : Str) (w0 : Waveform) (srcs : List Waveform)
    (hmock : eng.mock_mode = false)
    (hmodel : eng.model = some M)
    (hstems : MODEL_STEMS eng.model_name = some M.sources)
    (hpres : input.present = true)
    (hdec : input.decoded = .ok w0)
    (hinfer : M.infer (enforce_stereo w0) = .ok srcs)
    (hlen : srcs.length = M.sources.length)
    (hmiss : fs.dirs (.cacheDir b (hashFn input.content) mode) = none) :
    ∃ r1 r2 : SplitResult,
      (split_audio hashFn eng input fs none true (some b) mode).1 = .ok r1 ∧
      (split_audio hashFn eng input
        (split_audio hashFn eng input fs none true (some b) mode).2.2
        none true (some b) mode).1 = .ok r2 ∧
      r1.success = true ∧ r2.success = true ∧
      r1.cache_hit = false ∧ r2.cache_hit = true ∧
      r1.stems.map Prod.fst = M.sources ∧ r2.stems.map Prod.fst = M.sources ∧
      r1.sample_rate = some 44100 ∧ r2.sample_rate = some 44100 := by
  obtain ⟨hnd, hne⟩ := MODEL_STEMS_sound _ _ hstems
  have hznd : ((M.sources.zip srcs).map Prod.fst).Nodup := by
    rw [List.map_fst_zip M.sources srcs hlen.ge]
    exact hnd
  have hsave := saveStems_fresh targetPeakDefault input.pathStem eng.model_name 44100
    M.sources.length (M.sources.zip srcs) 0 [] (by intro q hq; cases hq) hznd
  have hcc1 : check_cache hashFn eng fs input b mode = (false, none) := by
    simp [check_cache, hpres, hmiss]
  have hsac := split_after_cache_success hashFn eng M input fs b mode w0 srcs
    [(2, initMsg), (3, checkingCacheMsg)] hmock hdec hmodel hinfer hmiss
  have hexp1 : (split_audio hashFn eng input fs none true (some b) mode).1 =
      (split_after_cache hashFn eng input fs none (some b) mode
        [(2, initMsg), (3, checkingCacheMsg)]).1 := by
    simp [split_audio, hpres, hcc1]
  have hexp2 : (split_audio hashFn eng input fs none true (some b) mode).2.2 =
      (split_after_cache hashFn eng input fs none (some b) mode
        [(2, initMsg), (3, checkingCacheMsg)]).2.2 := by
    simp [split_audio, hpres, hcc1]
  -- membership of every declared stem in the zipped save list
  have hzmem : ∀ s ∈ M.sources, ∃ w, (s, w) ∈ M.sources.zip srcs := by
    intro s hs
    obtain ⟨i, hi, hgi⟩ := List.mem_iff_getElem.mp hs
    have hi2 : i < srcs.length := by omega
    have hiz : i < (M.sources.zip srcs).length := by
      rw [List.length_zip]; omega
    refine ⟨srcs[i], ?_⟩
    have h2 : (M.sources.zip srcs)[i] = (M.sources[i], srcs[i]) := List.getElem_zip
    rw [← hgi, ← h2]
    exact List.getElem_mem hiz
  have hdec_dir : ∀ q ∈ cacheDirContents targetPeakDefault input.pathStem
      eng.model_name 44100 (M.sources.zip srcs), ∃ au, q.2 = some (au, 44100) := by
    intro q hq
    simp only [cacheDirContents, List.mem_map] at hq
    obtain ⟨p, hp, hqe⟩ := hq
    exact ⟨normalize_stem targetPeakDefault p.2, by rw [← hqe]⟩
  have hmatch : ∀ s ∈ M.sources, ∃ q ∈ cacheDirContents targetPeakDefault input.pathStem
      eng.model_name 44100 (M.sources.zip srcs), globStem s q.1 = true := by
    intro s hs
    obtain ⟨w, hw⟩ := hzmem s hs
    exact ⟨(stem_filename input.pathStem s eng.model_name,
        some (normalize_stem targetPeakDefault w, 44100)),
      List.mem_map_of_mem _ hw, globStem_stem_filename _ _ _⟩
  obtain ⟨es, osr, hco, hnames, hsr⟩ :=
    collectStems_complete _ 44100 hdec_dir M.sources hmatch
  have hosr : osr = some 44100 := hsr hne
  subst hosr
  have hdirs2 : ((fs.setDir (.cacheDir b (hashFn input.content) mode) []).setDir
      (.cacheDir b (hashFn input.content) mode)
      (saveStems targetPeakDefault input.pathStem eng.model_name 44100
        M.sources.length 0 (M.sources.zip srcs) []).1).dirs
      (.cacheDir b (hashFn input.content) mode) =
      some (cacheDirContents targetPeakDefault input.pathStem eng.model_name 44100
        (M.sources.zip srcs)) := by
    rw [hsave.1]
    simp [FS.setDir]
  have hcc2 : check_cache hashFn eng
      ((fs.setDir (.cacheDir b (hashFn input.content) mode) []).setDir
        (.cacheDir b (hashFn input.content) mode)
        (saveStems targetPeakDefault input.pathStem eng.model_name 44100
          M.sources.length 0 (M.sources.zip srcs) []).1) input b mode =
      (true, some { success := true, stems := es,
                    output_directory := some (.cacheDir b (hashFn input.content) mode),
                    sample_rate := some 44100, model_used := eng.model_name,
                    input_file := input.pathStr, cache_hit := true,
                    file_hash := some (hashFn input.content), error := none, mock := false }) := by
    simp [check_cache, hpres, hdirs2, hstems, hco]
  refine ⟨{ success := true,
            stems := (saveStems targetPeakDefault input.pathStem eng.model_name 44100
              M.sources.length 0 (M.sources.zip srcs) []).2.1,
            output_directory := some (.cacheDir b (hashFn input.content) mode),
            sample_rate := some 44100, model_used := eng.model_name,
            input_file := input.pathStr, cache_hit := false,
            file_hash := some (hashFn input.content), error := none, mock := false },
    { success := true, stems := es,
      output_directory := some (.cacheDir b (hashFn input.content) mode),
      sample_rate := some 44100, model_used := eng.model_name,
      input_file := input.pathStr, cache_hit := true,
      file_hash := some (hashFn input.content), error := none, mock := false },
    ?_, ?_, rfl, rfl, rfl, rfl, ?_, hnames, rfl, rfl⟩
  · rw [hexp1]
    exact hsac.1
  · rw [hexp2, hsac.2]
    simp [split_audio, hpres, hcc2]
  · rw [hsave.2]
    exact List.map_fst_zip M.sources srcs hlen.ge

/-- A concrete stereo buffer used by the C1 witness. -/
def c1Wave : Waveform := .multi [[1], [1]]

/-- A concrete loaded model for the C1 witness: the `htdemucs` profile with
an inference that returns one buffer per declared stem. -/
def c1Model : LoadedModel :=
  ⟨[("drums".toList), ("bass".toList), ("other".toList), ("vocals".toList)],
    fun _ => .ok [c1Wave, c1Wave, c1Wave, c1Wave]⟩

/-- A concrete non-mock engine for the C1 witness. -/
def c1Eng : SplitterEngine := ⟨("htdemucs".toList), false, some c1Model⟩

/-- A concrete existing, decodable input file for the C1 witness. -/
def c1Input : InputFile :=
  ⟨("song.mp3".toList), ("song".toList), true, ("c".toList), .ok c1Wave⟩

/-- A concrete empty file system for the C1 witness. -/
def c1FS : FS := ⟨fun _ => none⟩

/-- Witness for C1 at a fully concrete engine, input and file system. -/
theorem split_cache_roundtrip_witness :
    ∃ r1 r2 : SplitResult,
      (split_audio (fun _ => ("h".toList)) c1Eng c1Input c1FS none true
        (some ("out".toList)) ("fast".toList)).1 = .ok r1 ∧
      (split_audio (fun _ => ("h".toList)) c1Eng c1Input
        (split_audio (fun _ => ("h".toList)) c1Eng c1Input c1FS none true
          (some ("out".toList)) ("fast".toList)).2.2
        none true (some ("out".toList)) ("fast".toList)).1 = .ok r2 ∧
      r1.success = true ∧ r2.success = true ∧
      r1.cache_hit = false ∧ r2.cache_hit = true ∧
      r1.stems.map Prod.fst = c1Model.sources ∧
      r2.stems.map Prod.fst = c1Model.sources ∧
      r1.sample_rate = some 44100 ∧ r2.sample_rate = some 44100 :=
  split_cache_roundtrip (fun _ => ("h".toList)) c1Eng c1Model c1Input c1FS
    ("out".toList) ("fast".toList) c1Wave [c1Wave, c1Wave, c1Wave, c1Wave]
    rfl rfl (by decide) rfl rfl rfl rfl rfl

/-! ## The engine registry (sequential semantics) -/

/-- Model of `SplitterEngine.__init__` combined with `_initialize_model`.
`load_result` is the outcome of the opaque model loading (`get_model`,
`eval`, device placement); `none` models any exception there, e.g. a
missing dependency or a failed download. On a load failure the constructor
logs, sets `mock_mode = True` and leaves `model = None` — it raises
nothing. -/
def SplitterEngine.construct (model_name : Str) (mock_mode demucs_available : Bool)
    (load_result : Option LoadedModel) : SplitterEngine :=
  let mock1 := if demucs_available then mock_mode else true
  if mock_mode = false ∧ demucs_available = true then
    match load_result with
    | some m => { model_name := model_name, mock_mode := mock1, model := some m }
    | none => { model_name := model_name, mock_mode := true, model := none }
  else { model_name := model_name, mock_mode := mock1, model := none }

/-- Lookup in `MODEL_CONFIG[mode]["name"]`. -/
def MODEL_CONFIG_name (mode : Str) : Option Str :=
  if mode = ("fast".toList) then some ("htdemucs".toList)
  else if mode = ("detailed".toList) then some ("htdemucs_6s".toList)
  else none

/-- Lookup in `MODEL_CONFIG[mode]["stems"]` (the value is only interpolated
into progress detail strings). -/
def MODEL_CONFIG_stems (mode : Str) : ℕ :=
  if mode = ("fast".toList) then 4
  else if mode = ("detailed".toList) then 6 else 0

/-- The module-level registry state: `_splitter_engines` and `_model_ready`
keyed by mode. (The per-mode construction locks appear in the concurrent
model further below; this sequential model describes one call running
alone.) -/
structure Registry where
  engines : Str → Option SplitterEngine
  ready : Str → Bool

/-- The registry at process start: no engines, no readiness flags. -/
def Registry.initial : Registry := ⟨fun _ => none, fun _ => false⟩

/-- Failures of `get_splitter_engine`: the 503 `HTTPException` when the
splitter module failed to import, and the `KeyError` on an unknown mode. -/
inductive GetErr where
  | http503
  | keyError
deriving DecidableEq

/-- Sequential model of `get_splitter_engine`: double-checked singleton
access keyed by mode. On first access it constructs the engine — which
never raises, since a failed model load falls back to mock mode — then
publishes it and sets the readiness flag. -/
def get_splitter_engine (splitter_available demucs_available : Bool)
    (load : Str → Option LoadedModel) (reg : Registry) (mode : Str) :
    Except GetErr SplitterEngine × Registry :=
  if splitter_available = false then (.error .http503, reg)
  else
    match reg.engines mode with
    | some e => (.ok e, reg)
    | none =>
      match MODEL_CONFIG_name mode with
      | none => (.error .keyError, reg)
      | some mn =>
        let eng := SplitterEngine.construct mn false demucs_available (load mn)
        (.ok eng,
         { engines := fun m => if m = mode then some eng else reg.engines m,
           ready := fun m => if m = mode then true else reg.ready m })

/-- Counterexample to C3 as stated: with the splitter module and demucs
both importable but the model backend failing to load, the registry's
`get` does **not** fail with an `EngineUnavailable`-style error — it
returns a successfully constructed engine that silently fell back to mock
mode (`mock_mode = true`, no model). -/
theorem get_engine_load_failure_returns_mock :
    (get_splitter_engine true true (fun _ => none) Registry.initial
        ("fast".toList)).1 =
      .ok { model_name := ("htdemucs".toList), mock_mode := true, model := none } := by
  rfl

/-- C3 (amended): when the model backend for a valid mode fails to load,
the first `get` call succeeds with a mock-mode engine (`mock_mode = true`,
`model = none`) instead of raising, marks the mode ready, and every later
`get` call returns that same engine with the registry unchanged — engine
construction is never retried, and the load failure is silently replaced
by the fabricated/mock engine. -/
theorem get_engine_load_failure_mock_fallback
    (load : Str → Option LoadedModel) (reg : Registry) (mode mn : Str)
    (hmode : MODEL_CONFIG_name mode = some mn)
    (hload : load mn = none)
    (hnew : reg.engines mode = none) :
    ∃ e : SplitterEngine,
      (get_splitter_engine true true load reg mode).1 = .ok e ∧
      e.mock_mode = true ∧ e.model = none ∧
      (get_splitter_engine true true load reg mode).2.ready mode = true ∧
      get_splitter_engine true true load
          (get_splitter_engine true true load reg mode).2 mode =
        (.ok e, (get_splitter_engine true true load reg mode).2) := by
  refine ⟨⟨mn, true, none⟩, ?_, rfl, rfl, ?_, ?_⟩ <;>
    simp [get_splitter_engine, hmode, hload, hnew, SplitterEngine.construct]

/-- Witness for C3's amended theorem at a concrete failing load. -/
theorem get_engine_load_failure_mock_fallback_witness :
    (MODEL_CONFIG_name ("fast".toList) = some ("htdemucs".toList)) ∧
      ∃ e : SplitterEngine,
        (get_splitter_engine true true (fun _ => none) Registry.initial
            ("fast".toList)).1 = .ok e ∧
        e.mock_mode = true ∧ e.model = none ∧
        (get_splitter_engine true true (fun _ => none) Registry.initial
            ("fast".toList)).2.ready ("fast".toList) = true ∧
        get_splitter_engine true true (fun _ => none)
            (get_splitter_engine true true (fun _ => none) Registry.initial
              ("fast".toList)).2 ("fast".toList) =
          (.ok e, (get_splitter_engine true true (fun _ => none) Registry.initial
            ("fast".toList)).2) :=
  ⟨rfl, get_engine_load_failure_mock_fallback (fun _ => none) Registry.initial
    ("fast".toList) ("htdemucs".toList) rfl rfl rfl⟩

/-! ## C4 — the orchestrator `run_split_with_progress` -/

/-- An event pushed into the `ProgressStreamer` queue. The payloads of
`complete` and `metadata` events are not inspected by any claim and are
omitted from the embedding. -/
inductive Ev where
  | progress (percent : ℕ) (stage detail : Str)
  | metadata
  | complete
  | error (msg : Str)
deriving DecidableEq

/-- Terminal events are `complete` and `error`. -/
def Ev.isTerminal : Ev → Bool
  | .complete => true
  | .error _ => true
  | _ => false

/-- The progress `detail` string `f"<stem_count>-stem separation"`. -/
def detailMsg (mode : Str) : Str :=
  natToStr (MODEL_CONFIG_stems mode) ++ "-stem separation".toList

/-- The user-facing message sent on a caught `MemoryError`. -/
def oomUserMsg : Str :=
  "Out of memory. Try a shorter audio file (under 3 minutes).".toList

/-- The fallback error message when the engine result has no string. -/
def processingFailedMsg : Str := "Processing failed".toList

/-- Model of `run_split_with_progress` (api.py): run the engine inside a
broad handler, relay each progress callback into the streamer, and finish
with exactly one terminal event. `acq` is the outcome of
`get_splitter_engine` (whose exception is caught by the same handler).
Returns whether the temporary uploaded file was unlinked, the resulting
file system, and the events pushed to the streamer in order. -/
def run_split_with_progress (hashFn : Str → Str) (acq : Except Str SplitterEngine)
    (input : InputFile) (fs : FS) (base mode : Str) : Bool × FS × List Ev :=
  match acq with
  | .error msg => (false, fs, [.error msg])
  | .ok eng =>
    let out := split_audio hashFn eng input fs none true (some base) mode
    let pushed := out.2.1.map (fun p => Ev.progress p.1 p.2 (detailMsg mode))
    match out.1 with
    | .memErr _ => (false, out.2.2, pushed ++ [.error oomUserMsg])
    | .ok r =>
      if r.success = false then
        (false, out.2.2, pushed ++ [.error (r.error.getD processingFailedMsg)])
      else
        (true, out.2.2, pushed ++ [.complete])

/-- Counterexample to C4 as stated: on an engine-reported failure (here, a
missing input file) the orchestrator terminates the stream with an error
event but does **not** delete the temporary uploaded file (the unlink is
only on the success path). -/
theorem run_split_failure_keeps_file :
    run_split_with_progress (fun _ => ("h".toList))
        (.ok ⟨("htdemucs".toList), false, none⟩)
        ⟨("song.mp3".toList), ("song".toList), false, ("c".toList), .error []⟩
        ⟨fun _ => none⟩ ("out".toList) ("fast".toList) =
      (false, (⟨fun _ => none⟩ : FS),
        [.error (notFoundMsg ("song.mp3".toList))]) := by
  rfl

/-- C4 (amended): for every job the orchestrator always terminates the
progress stream with exactly one terminal event, which is the last event;
the temporary uploaded input file is deleted exactly on the success path
(terminal `complete`), and is left in place on every failure path —
engine-reported failure, out-of-memory, or an exception caught by the
outer handler (all of which terminate with an `error` event). -/
theorem run_split_cleanup_and_terminal (hashFn : Str → Str)
    (acq : Except Str SplitterEngine) (input : InputFile) (fs : FS)
    (base mode : Str) :
    ∃ evs, (∀ e ∈ evs, e.isTerminal = false) ∧
      ((run_split_with_progress hashFn acq input fs base mode).2.2 =
          evs ++ [Ev.complete] ∧
        (run_split_with_progress hashFn acq input fs base mode).1 = true ∨
       ∃ m, (run_split_with_progress hashFn acq input fs base mode).2.2 =
          evs ++ [Ev.error m] ∧
        (run_split_with_progress hashFn acq input fs base mode).1 = false) := by
  match acq with
  | .error msg =>
    exact ⟨[], (by simp), Or.inr ⟨msg, rfl, rfl⟩⟩
  | .ok eng =>
    have hnt : ∀ e ∈ (split_audio hashFn eng input fs none true (some base)
        mode).2.1.map (fun p => Ev.progress p.1 p.2 (detailMsg mode)),
        e.isTerminal = false := by
      intro e he
      obtain ⟨p, _, hpe⟩ := List.mem_map.mp he
      rw [← hpe]
      rfl
    refine ⟨(split_audio hashFn eng input fs none true (some base) mode).2.1.map
      (fun p => Ev.progress p.1 p.2 (detailMsg mode)), hnt, ?_⟩
    cases hspl : (split_audio hashFn eng input fs none true (some base) mode).1 with
    | memErr m =>
      exact Or.inr ⟨oomUserMsg, by simp [run_split_with_progress, hspl],
        by simp [run_split_with_progress, hspl]⟩
    | ok r =>
      by_cases hs : r.success = false
      · exact Or.inr ⟨r.error.getD processingFailedMsg,
          by simp [run_split_with_progress, hspl, hs],
          by simp [run_split_with_progress, hspl, hs]⟩
      · exact Or.inl ⟨by simp [run_split_with_progress, hspl, hs],
          by simp [run_split_with_progress, hspl, hs]⟩

/-! ## C5 — the SSE streamer as a transition system -/

/-- Delivered stream items: real events, or the `: keepalive` comment
(a no-op for clients, not an event). -/
inductive Item where
  | ev (e : Ev)
  | keepalive
deriving DecidableEq

/-- Producer-side state during `run_split_with_progress`: the events still
to `queue.put`, then — after the terminal event's put — whether the
`done.set()` of `send_complete`/`send_error` is still pending. -/
structure ProdState where
  toPut : List Ev
  donePending : Bool
deriving DecidableEq

/-- Consumer phase of `generate_sse_stream`: the `while not done` loop,
the post-loop drain of the queue, or terminated. -/
inductive Phase where
  | main
  | drain
  | fin
deriving DecidableEq

/-- A configuration of one job's streaming machinery: the producer thread,
the thread-safe FIFO `queue.Queue`, the `done` threading.Event, the
consumer coroutine's phase and the items delivered so far. -/
structure SseState where
  prod : ProdState
  q : List Ev
  doneFlag : Bool
  phase : Phase
  out : List Item
deriving DecidableEq

/-- Which side takes the next atomic step of the interleaving. -/
inductive SChoice where
  | producer
  | consumer
deriving DecidableEq

/-- One atomic step. Producer: `queue.put` the next event, or `done.set()`
once all puts are done. Consumer in the main loop: observe `done` and move
to the drain, else `get` one queued event and yield it, else yield a
keepalive comment (the 100 ms idle tick); in the drain: pop remaining
events until the queue is empty, then terminate. A side with nothing to do
leaves the state unchanged. -/
def sseStep (s : SseState) : SChoice → SseState
  | .producer =>
    match s.prod.toPut with
    | e :: r => { s with prod := ⟨r, s.prod.donePending⟩, q := s.q ++ [e] }
    | [] =>
      if s.prod.donePending then
        { s with prod := ⟨[], false⟩, doneFlag := true }
      else s
  | .consumer =>
    match s.phase with
    | .main =>
      if s.doneFlag then { s with phase := .drain }
      else
        match s.q with
        | e :: q2 => { s with q := q2, out := s.out ++ [.ev e] }
        | [] => { s with out := s.out ++ [.keepalive] }
    | .drain =>
      match s.q with
      | e :: q2 => { s with q := q2, out := s.out ++ [.ev e] }
      | [] => { s with phase := .fin }
    | .fin => s

/-- Initial configuration of a job whose producer pushes the events `es`,
then the terminal event `t`, then sets `done` — the exact producer shape
of `run_split_with_progress`. -/
def sseInit (es : List Ev) (t : Ev) : SseState :=
  ⟨⟨es ++ [t], true⟩, [], false, .main, []⟩

/-- Run a finite schedule of interleaved steps. -/
def sseRun (es : List Ev) (t : Ev) (cs : List SChoice) : SseState :=
  cs.foldl sseStep (sseInit es t)

/-- The events among the delivered items (keepalives are no-ops). -/
def outEvents (l : List Item) : List Ev :=
  l.filterMap (fun i => match i with | .ev e => some e | .keepalive => none)

/-- Helper: delivering an event extends `outEvents` by it. -/
theorem outEvents_append_ev (l : List Item) (e : Ev) :
    outEvents (l ++ [.ev e]) = outEvents l ++ [e] := by
  simp [outEvents]

/-- Helper: a keepalive comment does not change the delivered events. -/
theorem outEvents_append_keepalive (l : List Item) :
    outEvents (l ++ [.keepalive]) = outEvents l := by
  simp [outEvents]

/-- The inductive invariant of the streaming machine, relative to the full
pushed sequence `full`: delivered events, queued events and pending puts
always concatenate to `full` in order; `done` is set only after every put;
the consumer leaves the main loop only after observing `done`; and it
terminates only with an empty queue. -/
structure SseInv (full : List Ev) (s : SseState) : Prop where
  flow : outEvents s.out ++ s.q ++ s.prod.toPut = full
  doneProd : s.doneFlag = true → s.prod.toPut = [] ∧ s.prod.donePending = false
  phaseDone : s.phase ≠ .main → s.doneFlag = true
  finQ : s.phase = .fin → s.q = []

/-- Helper: the invariant holds initially. -/
theorem sseInv_init (es : List Ev) (t : Ev) :
    SseInv (es ++ [t]) (sseInit es t) := by
  refine ⟨by simp [sseInit, outEvents], ?_, ?_, ?_⟩ <;>
    intro h <;> simp [sseInit] at h

/-- Helper: every interleaved step preserves the streaming invariant. -/
theorem sseInv_step (full : List Ev) (s : SseState) (c : SChoice)
    (h : SseInv full s) : SseInv full (sseStep s c) := by
  cases c with
  | producer =>
    cases htp : s.prod.toPut with
    | cons e r =>
      have hstep : sseStep s .producer =
          { s with prod := ⟨r, s.prod.donePending⟩, q := s.q ++ [e] } := by
        simp [sseStep, htp]
      rw [hstep]
      refine ⟨?_, ?_, ?_, ?_⟩
      · show outEvents s.out ++ (s.q ++ [e]) ++ r = full
        rw [← h.flow, htp]
        simp
      · intro hd
        exact absurd (h.doneProd hd).1 (by rw [htp]; simp)
      · exact h.phaseDone
      · intro hph
        have hd := h.phaseDone (by rw [hph]; exact fun hc => Phase.noConfusion hc)
        exact absurd (h.doneProd hd).1 (by rw [htp]; simp)
    | nil =>
      cases hdp : s.prod.donePending with
      | true =>
        have hstep : sseStep s .producer =
            { s with prod := ⟨[], false⟩, doneFlag := true } := by
          simp [sseStep, htp, hdp]
        rw [hstep]
        refine ⟨?_, fun _ => ⟨rfl, rfl⟩, fun _ => rfl, h.finQ⟩
        show outEvents s.out ++ s.q ++ [] = full
        rw [← h.flow, htp]
      | false =>
        have hstep : sseStep s .producer = s := by
          simp [sseStep, htp, hdp]
        rw [hstep]
        exact h
  | consumer =>
    cases hph : s.phase with
    | main =>
      cases hdf : s.doneFlag with
      | true =>
        have hstep : sseStep s .consumer = { s with phase := .drain } := by
          simp [sseStep, hph, hdf]
        rw [hstep]
        refine ⟨h.flow, h.doneProd, fun _ => hdf, ?_⟩
        intro hc
        exact absurd hc (fun hc2 => Phase.noConfusion hc2)
      | false =>
        cases hq : s.q with
        | cons e q2 =>
          have hstep : sseStep s .consumer =
              { s with q := q2, out := s.out ++ [.ev e] } := by
            simp [sseStep, hph, hdf, hq]
          rw [hstep]
          refine ⟨?_, h.doneProd, ?_, ?_⟩
          · show outEvents (s.out ++ [.ev e]) ++ q2 ++ s.prod.toPut = full
            rw [outEvents_append_ev, ← h.flow, hq]
            simp
          · intro hc
            exact absurd hph hc
          · intro hc
            have hc2 : s.phase = .fin := hc
            rw [hph] at hc2
            exact Phase.noConfusion hc2
        | nil =>
          have hstep : sseStep s .consumer =
              { s with out := s.out ++ [.keepalive] } := by
            simp [sseStep, hph, hdf, hq]
          rw [hstep]
          refine ⟨?_, h.doneProd, ?_, ?_⟩
          · show outEvents (s.out ++ [.keepalive]) ++ s.q ++ s.prod.toPut = full
            rw [outEvents_append_keepalive, h.flow]
          · intro hc
            exact absurd hph hc
          · intro hc
            have hc2 : s.phase = .fin := hc
            rw [hph] at hc2
            exact Phase.noConfusion hc2
    | drain =>
      cases hq : s.q with
      | cons e q2 =>
        have hstep : sseStep s .consumer =
            { s with q := q2, out := s.out ++ [.ev e] } := by
          simp [sseStep, hph, hq]
        rw [hstep]
        refine ⟨?_, h.doneProd, ?_, ?_⟩
        · show outEvents (s.out ++ [.ev e]) ++ q2 ++ s.prod.toPut = full
          rw [outEvents_append_ev, ← h.flow, hq]
          simp
        · intro _
          exact h.phaseDone (by rw [hph]; exact fun hc => Phase.noConfusion hc)
        · intro hc
          have hc2 : s.phase = .fin := hc
          rw [hph] at hc2
          exact Phase.noConfusion hc2
      | nil =>
        have hstep : sseStep s .consumer = { s with phase := .fin } := by
          simp [sseStep, hph, hq]
        rw [hstep]
        refine ⟨h.flow, h.doneProd, ?_, fun _ => hq⟩
        intro _
        exact h.phaseDone (by rw [hph]; exact fun hc => Phase.noConfusion hc)
    | fin =>
      have hstep : sseStep s .consumer = s := by
        simp [sseStep, hph]
      rw [hstep]
      exact h

/-- Helper: the invariant holds after any finite schedule. -/
theorem sseRun_inv (es : List Ev) (t : Ev) (cs : List SChoice) :
    SseInv (es ++ [t]) (sseRun es t cs) := by
  suffices hgen : ∀ (s : SseState), SseInv (es ++ [t]) s →
      SseInv (es ++ [t]) (cs.foldl sseStep s) by
    exact hgen (sseInit es t) (sseInv_init es t)
  induction cs with
  | nil => intro s hs; exact hs
  | cons c cs2 ih =>
    intro s hs
    exact ih (sseStep s c) (sseInv_step _ s c hs)

/-- C5: for a job whose producer pushes the non-terminal events `es`, then
the terminal `t`, then sets `done` (the shape of every
`run_split_with_progress` path), and for **any** interleaving after which
the consumer has terminated: every pushed event was delivered, in FIFO
order, with none dropped (`outEvents = es ++ [t]`); the delivered events
contain exactly one terminal event and it is the last delivered event; and
termination implies the consumer had observed `done` and fully drained the
queue. -/
theorem sse_stream_delivery (es : List Ev) (t : Ev) (cs : List SChoice)
    (hes : ∀ e ∈ es, e.isTerminal = false) (ht : t.isTerminal = true)
    (hfin : (sseRun es t cs).phase = .fin) :
    outEvents (sseRun es t cs).out = es ++ [t] ∧
    (outEvents (sseRun es t cs).out).filter (fun e => e.isTerminal) = [t] ∧
    (outEvents (sseRun es t cs).out).getLast? = some t ∧
    (sseRun es t cs).doneFlag = true ∧
    (sseRun es t cs).q = [] := by
  have hinv := sseRun_inv es t cs
  have hdone : (sseRun es t cs).doneFlag = true := by
    refine hinv.phaseDone ?_
    rw [hfin]
    exact fun hc => Phase.noConfusion hc
  have hq : (sseRun es t cs).q = [] := hinv.finQ hfin
  have htp : (sseRun es t cs).prod.toPut = [] := (hinv.doneProd hdone).1
  have hout : outEvents (sseRun es t cs).out = es ++ [t] := by
    have hflow := hinv.flow
    rw [hq, htp] at hflow
    simpa using hflow
  refine ⟨hout, ?_, ?_, hdone, hq⟩
  · rw [hout, List.filter_append]
    have h1 : es.filter (fun e => e.isTerminal) = [] := by
      rw [List.filter_eq_nil_iff]
      intro a ha
      rw [hes a ha]
      exact Bool.false_ne_true
    rw [h1]
    simp [ht]
  · rw [hout]
    exact List.getLast?_concat _

/-- Witness for C5 at a concrete producer trace and a concrete completing
schedule. -/
theorem sse_stream_delivery_witness :
    outEvents (sseRun [.progress 50 [] []] .complete
        [.producer, .producer, .producer, .consumer, .consumer,
          .consumer, .consumer]).out = [.progress 50 [] [], .complete] ∧
      (outEvents (sseRun [.progress 50 [] []] .complete
        [.producer, .producer, .producer, .consumer, .consumer,
          .consumer, .consumer]).out).filter (fun e => e.isTerminal) = [.complete] ∧
      (outEvents (sseRun [.progress 50 [] []] .complete
        [.producer, .producer, .producer, .consumer, .consumer,
          .consumer, .consumer]).out).getLast? = some .complete ∧
      (sseRun [.progress 50 [] []] .complete
        [.producer, .producer, .producer, .consumer, .consumer,
          .consumer, .consumer]).doneFlag = true ∧
      (sseRun [.progress 50 [] []] .complete
        [.producer, .producer, .producer, .consumer, .consumer,
          .consumer, .consumer]).q = [] :=
  sse_stream_delivery [.progress 50 [] []] .complete
    [.producer, .producer, .producer, .consumer, .consumer, .consumer, .consumer]
    (by decide) rfl (by decide)

/-! ## C6 and C9 — the engine registry under concurrent access

One mode's registry cell is modelled: `_splitter_engines[mode]`,
`_engine_locks[mode]` and `_model_ready[mode]` are independent objects per
mode (disjoint dict keys, one lock and one event per mode), so per-mode
behaviour is captured by a single cell shared by any number of threads. -/

/-- Program counter of one thread running `get_splitter_engine` for the
fixed mode. `start`: the unlocked `mode not in _splitter_engines` check;
`waitLock`: acquiring the per-mode lock; `check2`: holds the lock, about
to re-check the dict; `constructPC`: holds the lock, about to run
`_splitter_engines[mode] = SplitterEngine(...)` (construct + publish, one
statement); `setReadyPC`: about to run `_model_ready[mode].set()`;
`unlock`: about to release the lock; `readRet`: about to read
`_splitter_engines[mode]` for the return; `doneT`: returned. -/
inductive RegPC where
  | start
  | waitLock
  | check2
  | constructPC
  | setReadyPC
  | unlock
  | readRet
  | doneT
deriving DecidableEq

/-- Global state of the cell plus per-thread control state. Engine
instances are identified by the value of the construction counter `ctr`
at their construction, so `ctr` counts constructions and distinct
instances get distinct identifiers. `res t` is thread `t`'s returned
engine. -/
structure RegState where
  engine : Option ℕ
  ctr : ℕ
  lockHeld : Option ℕ
  ready : Bool
  pcs : ℕ → RegPC
  res : ℕ → Option ℕ

/-- Process start: no engine, no lock holder, readiness unset, all threads
at their first check. -/
def RegState.initial : RegState :=
  ⟨none, 0, none, false, fun _ => .start, fun _ => none⟩

/-- Update one thread's program counter. -/
def setPC (s : RegState) (t : ℕ) (pc : RegPC) : RegState :=
  { s with pcs := fun u => if u = t then pc else s.pcs u }

/-- One atomic step of thread `t` (dict reads/writes and `Event.set` are
atomic under the GIL; the lock acquire is an atomic test-and-set, and a
thread that cannot acquire it stays blocked). -/
def regStep (s : RegState) (t : ℕ) : RegState :=
  match s.pcs t with
  | .start =>
    if s.engine.isSome then setPC s t .readRet else setPC s t .waitLock
  | .waitLock =>
    match s.lockHeld with
    | none => { setPC s t .check2 with lockHeld := some t }
    | some _ => s
  | .check2 =>
    if s.engine.isSome then setPC s t .unlock else setPC s t .constructPC
  | .constructPC =>
    { setPC s t .setReadyPC with engine := some s.ctr, ctr := s.ctr + 1 }
  | .setReadyPC =>
    { setPC s t .unlock with ready := true }
  | .unlock =>
    { setPC s t .readRet with lockHeld := none }
  | .readRet =>
    { setPC s t .doneT with res := fun u => if u = t then s.engine else s.res u }
  | .doneT => s

/-- Run a finite interleaving (a list of thread identifiers). -/
def regRun (ts : List ℕ) : RegState := ts.foldl regStep RegState.initial

/-- The program counters at which a thread holds the per-mode lock. -/
def inLockRegion : RegPC → Bool
  | .check2 => true
  | .constructPC => true
  | .setReadyPC => true
  | .unlock => true
  | _ => false

/-- The inductive invariant of the registry cell. -/
structure RegInv (s : RegState) : Prop where
  lockOwner : ∀ t, inLockRegion (s.pcs t) = true → s.lockHeld = some t
  constructNone : ∀ t, s.pcs t = .constructPC → s.engine = none
  ctrEngine : (s.engine = none ∧ s.ctr = 0) ∨ (s.engine = some 0 ∧ s.ctr = 1)
  readyEngine : s.ready = true → s.engine.isSome = true
  pcEngine : ∀ t, s.pcs t = .setReadyPC ∨ s.pcs t = .unlock ∨ s.pcs t = .readRet →
    s.engine.isSome = true
  resEngine : ∀ t e, s.res t = some e → s.engine = some e
  doneRes : ∀ t, s.pcs t = .doneT → (s.res t).isSome = true

/-- Helper: the invariant holds initially. -/
theorem regInv_init : RegInv RegState.initial := by
  refine ⟨?_, ?_, Or.inl ⟨rfl, rfl⟩, ?_, ?_, ?_, ?_⟩
  · intro t ht; simp [RegState.initial, inLockRegion] at ht
  · intro t ht; simp [RegState.initial] at ht
  · intro ht; simp [RegState.initial] at ht
  · intro t ht; rcases ht with ht | ht | ht <;> simp [RegState.initial] at ht
  · intro t e ht; simp [RegState.initial] at ht
  · intro t ht; simp [RegState.initial] at ht

/-- Helper: the invariant is preserved by a step that only moves one
thread's program counter, provided the new counter's obligations hold. -/
theorem regInv_setPC (s : RegState) (t : ℕ) (pc : RegPC) (h : RegInv s)
    (h1 : inLockRegion pc = true → s.lockHeld = some t)
    (h2 : pc = .constructPC → s.engine = none)
    (h3 : pc = .setReadyPC ∨ pc = .unlock ∨ pc = .readRet → s.engine.isSome = true)
    (h4 : pc = .doneT → (s.res t).isSome = true) :
    RegInv (setPC s t pc) := by
  refine ⟨?_, ?_, h.ctrEngine, h.readyEngine, ?_, h.resEngine, ?_⟩
  · intro u hu
    by_cases hut : u = t
    · subst hut
      simp only [setPC, if_pos rfl] at hu
      exact h1 hu
    · simp only [setPC] at hu
      rw [if_neg hut] at hu
      exact h.lockOwner u hu
  · intro u hu
    by_cases hut : u = t
    · subst hut
      simp only [setPC, if_pos rfl] at hu
      exact h2 hu
    · simp only [setPC] at hu
      rw [if_neg hut] at hu
      exact h.constructNone u hu
  · intro u hu
    by_cases hut : u = t
    · subst hut
      simp only [setPC, if_pos rfl] at hu
      exact h3 hu
    · simp only [setPC] at hu
      rw [if_neg hut] at hu
      exact h.pcEngine u hu
  · intro u hu
    by_cases hut : u = t
    · subst hut
      simp only [setPC, if_pos rfl] at hu
      exact h4 hu
    · simp only [setPC] at hu
      rw [if_neg hut] at hu
      exact h.doneRes u hu

/-- Helper: every step by any thread preserves the registry invariant. -/
theorem regInv_step (s : RegState) (t : ℕ) (h : RegInv s) :
    RegInv (regStep s t) := by
  cases hpc : s.pcs t with
  | start =>
    cases heng : s.engine with
    | some e =>
      have hstep : regStep s t = setPC s t .readRet := by
        simp [regStep, hpc, heng]
      rw [hstep]
      refine regInv_setPC s t .readRet h ?_ ?_ ?_ ?_
      · intro hc; simp [inLockRegion] at hc
      · intro hc; exact RegPC.noConfusion hc
      · intro _; rw [heng]; rfl
      · intro hc; exact RegPC.noConfusion hc
    | none =>
      have hstep : regStep s t = setPC s t .waitLock := by
        simp [regStep, hpc, heng]
      rw [hstep]
      refine regInv_setPC s t .waitLock h ?_ ?_ ?_ ?_
      · intro hc; simp [inLockRegion] at hc
      · intro hc; exact RegPC.noConfusion hc
      · intro hc; rcases hc with hc | hc | hc <;> exact RegPC.noConfusion hc
      · intro hc; exact RegPC.noConfusion hc
  | waitLock =>
    cases hlk : s.lockHeld with
    | some u0 =>
      have hstep : regStep s t = s := by
        simp [regStep, hpc, hlk]
      rw [hstep]; exact h
    | none =>
      have hstep : regStep s t = { setPC s t .check2 with lockHeld := some t } := by
        simp [regStep, hpc, hlk]
      rw [hstep]
      refine ⟨?_, ?_, h.ctrEngine, h.readyEngine, ?_, h.resEngine, ?_⟩
      · intro u hu
        by_cases hut : u = t
        · subst hut; rfl
        · simp only [setPC] at hu
          rw [if_neg hut] at hu
          have := h.lockOwner u hu
          rw [hlk] at this
          exact Option.noConfusion this
      · intro u hu
        by_cases hut : u = t
        · subst hut
          simp only [setPC, if_pos rfl] at hu
          exact RegPC.noConfusion hu
        · simp only [setPC] at hu
          rw [if_neg hut] at hu
          exact h.constructNone u hu
      · intro u hu
        by_cases hut : u = t
        · subst hut
          simp only [setPC, if_pos rfl] at hu
          rcases hu with hu | hu | hu <;> exact RegPC.noConfusion hu
        · simp only [setPC] at hu
          rw [if_neg hut] at hu
          exact h.pcEngine u hu
      · intro u hu
        by_cases hut : u = t
        · subst hut
          simp only [setPC, if_pos rfl] at hu
          exact RegPC.noConfusion hu
        · simp only [setPC] at hu
          rw [if_neg hut] at hu
          exact h.doneRes u hu
  | check2 =>
    have hlk : s.lockHeld = some t := h.lockOwner t (by rw [hpc]; rfl)
    cases heng : s.engine with
    | some e =>
      have hstep : regStep s t = setPC s t .unlock := by
        simp [regStep, hpc, heng]
      rw [hstep]
      refine regInv_setPC s t .unlock h ?_ ?_ ?_ ?_
      · intro _; exact hlk
      · intro hc; exact RegPC.noConfusion hc
      · intro _; rw [heng]; rfl
      · intro hc; exact RegPC.noConfusion hc
    | none =>
      have hstep : regStep s t = setPC s t .constructPC := by
        simp [regStep, hpc, heng]
      rw [hstep]
      refine regInv_setPC s t .constructPC h ?_ ?_ ?_ ?_
      · intro _; exact hlk
      · intro _; exact heng
      · intro hc; rcases hc with hc | hc | hc <;> exact RegPC.noConfusion hc
      · intro hc; exact RegPC.noConfusion hc
  | constructPC =>
    have hlk : s.lockHeld = some t := h.lockOwner t (by rw [hpc]; rfl)
    have heng : s.engine = none := h.constructNone t hpc
    have hctr : s.ctr = 0 := by
      rcases h.ctrEngine with ⟨_, hc⟩ | ⟨he, _⟩
      · exact hc
      · rw [heng] at he; exact Option.noConfusion he
    have hstep : regStep s t =
        { setPC s t .setReadyPC with engine := some s.ctr, ctr := s.ctr + 1 } := by
      simp [regStep, hpc]
    rw [hstep]
    refine ⟨?_, ?_, ?_, ?_, ?_, ?_, ?_⟩
    · intro u hu
      by_cases hut : u = t
      · subst hut; exact hlk
      · simp only [setPC] at hu
        rw [if_neg hut] at hu
        exact h.lockOwner u hu
    · intro u hu
      by_cases hut : u = t
      · subst hut
        simp only [setPC, if_pos rfl] at hu
        exact RegPC.noConfusion hu
      · simp only [setPC] at hu
        rw [if_neg hut] at hu
        have := h.lockOwner u (by rw [hu]; rfl)
        rw [hlk] at this
        injection this with this
        exact absurd this.symm hut
    · exact Or.inr ⟨by rw [hctr], by rw [hctr]⟩
    · intro _; rfl
    · intro u _; rfl
    · intro u e hres
      have := h.resEngine u e hres
      rw [heng] at this
      exact Option.noConfusion this
    · intro u hu
      by_cases hut : u = t
      · subst hut
        simp only [setPC, if_pos rfl] at hu
        exact RegPC.noConfusion hu
      · simp only [setPC] at hu
        rw [if_neg hut] at hu
        exact h.doneRes u hu
  | setReadyPC =>
    have hlk : s.lockHeld = some t := h.lockOwner t (by rw [hpc]; rfl)
    have hsome : s.engine.isSome = true := h.pcEngine t (Or.inl hpc)
    have hstep : regStep s t = { setPC s t .unlock with ready := true } := by
      simp [regStep, hpc]
    rw [hstep]
    refine ⟨?_, ?_, h.ctrEngine, ?_, ?_, h.resEngine, ?_⟩
    · intro u hu
      by_cases hut : u = t
      · subst hut; exact hlk
      · simp only [setPC] at hu
        rw [if_neg hut] at hu
        exact h.lockOwner u hu
    · intro u hu
      by_cases hut : u = t
      · subst hut
        simp only [setPC, if_pos rfl] at hu
        exact RegPC.noConfusion hu
      · simp only [setPC] at hu
        rw [if_neg hut] at hu
        exact h.constructNone u hu
    · intro _; exact hsome
    · intro u hu
      by_cases hut : u = t
      · subst hut; exact hsome
      · simp only [setPC] at hu
        rw [if_neg hut] at hu
        exact h.pcEngine u hu
    · intro u hu
      by_cases hut : u = t
      · subst hut
        simp only [setPC, if_pos rfl] at hu
        exact RegPC.noConfusion hu
      · simp only [setPC] at hu
        rw [if_neg hut] at hu
        exact h.doneRes u hu
  | unlock =>
    have hlk : s.lockHeld = some t := h.lockOwner t (by rw [hpc]; rfl)
    have hsome : s.engine.isSome = true := h.pcEngine t (Or.inr (Or.inl hpc))
    have hstep : regStep s t = { setPC s t .readRet with lockHeld := none } := by
      simp [regStep, hpc]
    rw [hstep]
    refine ⟨?_, ?_, h.ctrEngine, h.readyEngine, ?_, h.resEngine, ?_⟩
    · intro u hu
      by_cases hut : u = t
      · subst hut
        simp only [setPC, if_pos rfl] at hu
        simp [inLockRegion] at hu
      · simp only [setPC] at hu
        rw [if_neg hut] at hu
        have := h.lockOwner u hu
        rw [hlk] at this
        injection this with this
        exact absurd this.symm hut
    · intro u hu
      by_cases hut : u = t
      · subst hut
        simp only [setPC, if_pos rfl] at hu
        exact RegPC.noConfusion hu
      · simp only [setPC] at hu
        rw [if_neg hut] at hu
        exact h.constructNone u hu
    · intro u hu
      by_cases hut : u = t
      · subst hut; exact hsome
      · simp only [setPC] at hu
        rw [if_neg hut] at hu
        exact h.pcEngine u hu
    · intro u hu
      by_cases hut : u = t
      · subst hut
        simp only [setPC, if_pos rfl] at hu
        exact RegPC.noConfusion hu
      · simp only [setPC] at hu
        rw [if_neg hut] at hu
        exact h.doneRes u hu
  | readRet =>
    have hsome : s.engine.isSome = true := h.pcEngine t (Or.inr (Or.inr hpc))
    have hstep : regStep s t = { setPC s t .doneT with
        res := fun u => if u = t then s.engine else s.res u } := by
      simp [regStep, hpc]
    rw [hstep]
    refine ⟨?_, ?_, h.ctrEngine, h.readyEngine, ?_, ?_, ?_⟩
    · intro u hu
      by_cases hut : u = t
      · subst hut
        simp only [setPC, if_pos rfl] at hu
        simp [inLockRegion] at hu
      · simp only [setPC] at hu
        rw [if_neg hut] at hu
        exact h.lockOwner u hu
    · intro u hu
      by_cases hut : u = t
      · subst hut
        simp only [setPC, if_pos rfl] at hu
        exact RegPC.noConfusion hu
      · simp only [setPC] at hu
        rw [if_neg hut] at hu
        exact h.constructNone u hu
    · intro u hu
      by_cases hut : u = t
      · subst hut
        simp only [setPC, if_pos rfl] at hu
        rcases hu with hu | hu | hu <;> exact RegPC.noConfusion hu
      · simp only [setPC] at hu
        rw [if_neg hut] at hu
        exact h.pcEngine u hu
    · intro u e hres
      by_cases hut : u = t
      · subst hut
        simp only [if_pos rfl] at hres
        exact hres
      · simp only [if_neg hut] at hres
        exact h.resEngine u e hres
    · intro u hu
      by_cases hut : u = t
      · subst hut
        simp only [if_pos rfl]
        exact hsome
      · simp only [setPC] at hu
        rw [if_neg hut] at hu
        simp only [if_neg hut]
        exact h.doneRes u hu
  | doneT =>
    have hstep : regStep s t = s := by
      simp [regStep, hpc]
    rw [hstep]; exact h

/-- Helper: the invariant holds after any finite interleaving. -/
theorem regRun_inv (ts : List ℕ) : RegInv (regRun ts) := by
  suffices hgen : ∀ (s : RegState), RegInv s → RegInv (ts.foldl regStep s) by
    exact hgen RegState.initial regInv_init
  induction ts with
  | nil => intro s hs; exact hs
  | cons t ts2 ih =>
    intro s hs
    exact ih (regStep s t) (regInv_step s t hs)

/-- C6: under any interleaving of any number of threads calling
`get_splitter_engine` for the same mode, engine construction runs at most
once (`ctr ≤ 1`); every thread that returns has obtained the published
engine (callers block on the per-mode lock until the single construction
has completed, never returning an absent engine); and any two returned
engine instances are the same instance. -/
theorem registry_single_construction (ts : List ℕ) :
    (regRun ts).ctr ≤ 1 ∧
    (∀ t : ℕ, (regRun ts).pcs t = .doneT →
      ∃ e, (regRun ts).res t = some e ∧ (regRun ts).engine = some e) ∧
    (∀ t1 t2 e1 e2, (regRun ts).res t1 = some e1 → (regRun ts).res t2 = some e2 →
      e1 = e2) := by
  have hinv := regRun_inv ts
  refine ⟨?_, ?_, ?_⟩
  · rcases hinv.ctrEngine with ⟨_, hc⟩ | ⟨_, hc⟩ <;> omega
  · intro t ht
    have hres := hinv.doneRes t ht
    cases hr : (regRun ts).res t with
    | none => rw [hr] at hres; exact Bool.noConfusion hres
    | some e => exact ⟨e, rfl, hinv.resEngine t e hr⟩
  · intro t1 t2 e1 e2 h1 h2
    have he1 := hinv.resEngine t1 e1 h1
    have he2 := hinv.resEngine t2 e2 h2
    rw [he1] at he2
    injection he2

/-- Witness for C6: a concrete interleaving in which thread 0 constructs
the engine and thread 1 then takes the fast path; both finish with the
same instance and exactly one construction happened. -/
theorem registry_single_construction_witness :
    (regRun [0, 0, 0, 0, 0, 0, 0, 1, 1]).ctr ≤ 1 ∧
      ((regRun [0, 0, 0, 0, 0, 0, 0, 1, 1]).pcs 1 = .doneT) ∧
      ∃ e, (regRun [0, 0, 0, 0, 0, 0, 0, 1, 1]).res 1 = some e ∧
        (regRun [0, 0, 0, 0, 0, 0, 0, 1, 1]).engine = some e :=
  ⟨(registry_single_construction [0, 0, 0, 0, 0, 0, 0, 1, 1]).1, by decide,
    (registry_single_construction [0, 0, 0, 0, 0, 0, 0, 1, 1]).2.1 1 (by decide)⟩

/-- C9: in every reachable registry state, whenever the mode's readiness
flag is set an engine for the mode is already present — the flag is set
only after the engine has been constructed and published under the
per-mode lock, so a request passing the readiness gate never observes an
absent engine. -/
theorem registry_ready_implies_engine (ts : List ℕ)
    (hready : (regRun ts).ready = true) :
    ((regRun ts).engine).isSome = true :=
  (regRun_inv ts).readyEngine hready

/-- Witness for C9 at a concrete interleaving that sets the flag. -/
theorem registry_ready_implies_engine_witness :
    ((regRun [0, 0, 0, 0, 0]).ready = true) ∧
      ((regRun [0, 0, 0, 0, 0]).engine).isSome = true :=
  ⟨by decide, registry_ready_implies_engine [0, 0, 0, 0, 0] (by decide)⟩
